import Mathlib

set_option maxHeartbeats 1000000

/-!
Shallow embedding of the gidget daemon (gidget.c, v1.01, Goddard & Brooks 2011).

gidget reads a colon-separated configuration file, registers one inotify watch
per accepted line ("trick"), then forks a worker per delivered event; the
worker assembles the target path, runs the configured script through the
account's shell, and mails any captured output.

The definitions below translate the relevant parts of the source:
  * the configuration parse / inotify setup loop of main()   (lines 218-478),
  * the event-path assembly and apostrophe munging in the worker (703-723),
  * the mail emitter of the worker parent                     (894-927),
  * option parsing, gig_opts() and the getopt protocol it relies on (1023-1116),
  * the syslog gates of main() and logx()                     (141-142, 1213).

Kernel- and libc-supplied values (pathconf, inotify_add_watch results,
sysconf limits) are oracle parameters collected in `Env`.  Heap allocation is
modelled as always succeeding.  Character strings are `List Char` over ASCII.
-/

/-! ### Characters and limits -/

-- single ASCII characters used for path composition and munging (lines 102-104)
def spaceC : Char := Char.ofNat 32
def aposC : Char := Char.ofNat 39
def slashC : Char := Char.ofNat 47

-- NUL, the C string terminator
def nulC : Char := Char.ofNat 0

-- C isprint() in the POSIX locale: the ASCII printable range
def isprintC (c : Char) : Bool := decide (32 ≤ c.toNat) && decide (c.toNat ≤ 126)

-- compile-time limits (lines 31-37)
def MAX_CONFIG_NAME_LEN : Nat := 256
def MAX_LOG_NAME_LEN : Nat := 256
def MAX_PID_NAME_LEN : Nat := 128

-- limits local to main() (lines 95-99)
def maxScriptLen : Nat := 256
def maxEmailLen : Nat := 36

/-- Equality of fallible results is decidable (used to evaluate the model on
concrete inputs). -/
instance instDecEqExcept {e a : Type} [DecidableEq e] [DecidableEq a] :
    DecidableEq (Except e a) := fun x y =>
  match x, y with
  | .ok v, .ok w =>
    if h : v = w then isTrue (by rw [h]) else isFalse (fun hh => h (Except.ok.inj hh))
  | .error v, .error w =>
    if h : v = w then isTrue (by rw [h]) else isFalse (fun hh => h (Except.error.inj hh))
  | .ok _, .error _ => isFalse (fun hh => Except.noConfusion hh)
  | .error _, .ok _ => isFalse (fun hh => Except.noConfusion hh)

/-! ### The trick data structure (lines 51-58) -/

structure trick_t where
  watchHandle : Int       -- inotify watch descriptor (int32_t)
  actions : Nat           -- bitmap of what to watch for (uint32_t)
  fileName : List Char    -- file or directory to be watched
  script : List Char      -- executable object to run
  userid : List Char      -- user who will run script
  mail : List Char        -- email to receive script output
deriving DecidableEq

/-- Run-time environment: system oracles consulted by the loader.
`pathconf p` is pathconf(p, _PC_NAME_MAX); `addWatch k` is the value returned
by the k-th inotify_add_watch call; `maxUidLen` is sysconf(_SC_LOGIN_NAME_MAX);
`verbose` is opt.verbose. -/
structure Env where
  pathconf : List Char → Int
  addWatch : Nat → Int
  maxUidLen : Nat
  verbose : Bool

/-- Log lines emitted through logx() during the configuration parse loop,
identified by their format string in the source. -/
inductive Msg where
  | invisibleChar (lineNo pos : Nat)            -- "invisible character in file %s line %d position %d"
  | illegalChar (lineNo pos : Nat)              -- "illegal character in file %s line %d position %d"
  | pathconfFail (tok : List Char)              -- "Can't determine max file name length for filesystem hosting %s"
  | maxNameLenSet (m : Int)                     -- "Maximum file name length set to %d..." (verbose)
  | nonNumericMask (lineNo : Nat)               -- "ERROR: non-numeric event mask in %s line %d field 2"
  | scriptTooLong (lineNo : Nat)                -- "ERROR: script name too long in %s line %d field 3"
  | useridTooLong (lineNo : Nat)                -- case 4's length failure (source reuses the field-3 text)
  | emailTooLong (lineNo : Nat)                 -- "Email address too long in %s line %d field 5"
  | tooManyFields (lineNo : Nat) (tok : List Char) -- "TOO MANY FIELDS IN LINE %d - DISCARDING %s!"
  | discardingLine (lineNo : Nat)               -- "ERROR: discarding %s line %d!"
  | addWatchFail (fileName : List Char)         -- "ERROR %d: Unable to add watch for %s..."
  | addedWatch (fileName : List Char) (wd : Int) -- "Added watch %s mask %#.8x handle %d." (verbose)
  | heapCorrupt                                 -- "FATAL ERROR! Heap corrupt, non-sequential watch descriptor returned from inotify!"
deriving DecidableEq

/-- State threaded through the configuration parse / inotify setup loop. -/
structure ParseSt where
  tricks : List trick_t   -- the trickHeap table, in order
  pony : trick_t          -- the one-trick pony the fields are loaded into
  maxNameLen : Int        -- running maximum of pathconf results (line 121)
  attempts : Nat          -- number of inotify_add_watch calls made so far
  lineNo : Nat
  logs : List Msg
deriving DecidableEq

def initPony : trick_t :=
  { watchHandle := 0, actions := 0, fileName := [], script := [], userid := [], mail := [] }

def initSt : ParseSt :=
  { tricks := [], pony := initPony, maxNameLen := 0, attempts := 0, lineNo := 0, logs := [] }

/-! ### atoi on the mask field (line 306)

glibc on LP64 implements atoi(s) as (int) strtol(s, NULL, 10); strtol
saturates at LONG_MAX = 2^63 - 1, and the long → int and int → uint32_t
conversions reduce the value mod 2^32. -/

def digitsVal (s : List Char) : Nat := s.foldl (fun a c => a * 10 + (c.toNat - 48)) 0

def atoiU32 (s : List Char) : Nat := (min (digitsVal s) (2 ^ 63 - 1)) % 2 ^ 32

/-! ### The per-field switch of the parse loop (lines 267-387) -/

/-- The switch over `fieldNo`: check the token syntax while loading up the
pony.  Returns the updated state and the new badPony value.  Heap
allocation failures (which would also set badPony) are not modelled. -/
def procField (env : Env) (st : ParseSt) (badPony fieldNo : Nat) (tok : List Char) :
    ParseSt × Nat :=
  if fieldNo = 1 then
    let m := env.pathconf tok
    if m ≤ 0 then
      ({st with logs := st.logs ++ [Msg.pathconfFail tok]}, 1)
    else
      let st :=
        if m > st.maxNameLen then
          {st with maxNameLen := m,
                   logs := st.logs ++ (if env.verbose then [Msg.maxNameLenSet m] else [])}
        else st
      ({st with pony := {st.pony with fileName := tok}}, badPony)
  else if fieldNo = 2 then
    if tok.all Char.isDigit then
      ({st with pony := {st.pony with actions := atoiU32 tok}}, badPony)
    else
      ({st with logs := st.logs ++ [Msg.nonNumericMask st.lineNo]}, 2)
  else if fieldNo = 3 then
    if tok.length > maxScriptLen then
      ({st with logs := st.logs ++ [Msg.scriptTooLong st.lineNo]}, 3)
    else
      ({st with pony := {st.pony with script := tok}}, badPony)
  else if fieldNo = 4 then
    if tok.length > env.maxUidLen then
      ({st with logs := st.logs ++ [Msg.useridTooLong st.lineNo]}, 4)
    else
      ({st with pony := {st.pony with userid := tok}}, badPony)
  else if fieldNo = 5 then
    if tok.length > maxEmailLen then
      ({st with logs := st.logs ++ [Msg.emailTooLong st.lineNo]}, 7)
    else
      ({st with pony := {st.pony with mail := tok}}, badPony)
  else
    ({st with logs := st.logs ++ [Msg.tooManyFields st.lineNo tok]}, badPony)

/-! ### The character loop over one configuration line (lines 233-392) -/

/-- The invisible / illegal character checks of lines 238-255, performed on
every character before the comment delimiter. -/
def charCheck (c : Char) (pos badPony : Nat) (st : ParseSt) : ParseSt × Nat :=
  if isprintC c = false then
    if c ≠ '\n' then
      ({st with logs := st.logs ++ [Msg.invisibleChar st.lineNo (pos + 1)]}, 1)
    else (st, badPony)
  else if c = aposC then
    ({st with logs := st.logs ++ [Msg.illegalChar st.lineNo (pos + 1)]}, 1)
  else (st, badPony)

/-- Step through the characters of a line until its end or a comment
delimiter.  `pos` is the C `recordLen` counter; `tokAcc` accumulates the
current field in reverse (the C code uses tokenStart/recordLen indices).
Returns the state together with the final fieldNo and badPony. -/
def mainLineLoop (env : Env) :
    List Char → Nat → List Char → Nat → Nat → ParseSt → ParseSt × Nat × Nat
  | [], _, _, fieldNo, badPony, st => (st, fieldNo, badPony)
  | c :: rest, pos, tokAcc, fieldNo, badPony, st =>
    if c = '#' then (st, fieldNo, badPony)
    else
      match charCheck c pos badPony st with
      | (st, badPony) =>
        -- field delimiter: extract a token from the currently known field (lines 258-390)
        if c = ':' ∨ c = '\n' then
          match procField env st badPony (fieldNo + 1) tokAcc.reverse with
          | (st, badPony) => mainLineLoop env rest (pos + 1) [] (fieldNo + 1) badPony st
        else
          mainLineLoop env rest (pos + 1) (c :: tokAcc) fieldNo badPony st

/-! ### Watch registration (lines 402-459) -/

/-- Call inotify_add_watch for the pony and, on success, check the returned
descriptor against trickCount + 1: a divergence is the fatal logx(2)
"heap corrupt" path, otherwise the trick is appended to the table. -/
def registerTrick (env : Env) (st : ParseSt) : Except Msg ParseSt :=
  let wd := env.addWatch st.attempts
  let st := {st with attempts := st.attempts + 1}
  if wd < 0 then
    .ok {st with logs := st.logs ++ [Msg.addWatchFail st.pony.fileName,
                                     Msg.discardingLine st.lineNo]}
  else if wd ≠ (st.tricks.length + 1 : Int) then
    .error Msg.heapCorrupt
  else
    let st := {st with logs := st.logs ++
                 (if env.verbose then [Msg.addedWatch st.pony.fileName wd] else [])}
    .ok {st with tricks := st.tricks ++ [{st.pony with watchHandle := wd}]}

/-- End-of-line handling (lines 394-461): silently skip empty lines and
full-line comments (fieldNo = 0); discard lines with a bad field or fewer
than five fields; otherwise register the watch. -/
def linePost (env : Env) (st : ParseSt) (fieldNo badPony : Nat) : Except Msg ParseSt :=
  if fieldNo = 0 then .ok st
  else if badPony ≠ 0 ∨ fieldNo < 5 then
    .ok {st with logs := st.logs ++ [Msg.discardingLine st.lineNo]}
  else registerTrick env st

/-- Process one fgets line (including its trailing newline, when present). -/
def procLine (env : Env) (st : ParseSt) (line : List Char) : Except Msg ParseSt :=
  let st := {st with lineNo := st.lineNo + 1}
  match mainLineLoop env line 0 [] 0 0 st with
  | (st, fieldNo, badPony) => linePost env st fieldNo badPony

/-- The whole configuration parse / inotify setup loop over the lines of the
configuration file.  A fatal logx exit surfaces as `.error`. -/
def loadConfig (env : Env) : List (List Char) → ParseSt → Except Msg ParseSt
  | [], st => .ok st
  | l :: ls, st =>
    match procLine env st l with
    | .error e => .error e
    | .ok st' => loadConfig env ls st'

/-! ### Event-path assembly and apostrophe munging (lines 689-723)

The worker copies pony.fileName into the buffer `char fileOrFolder[maxNameLen]`,
overwrites the terminating NUL with a slash, then copies the event name a
character at a time, rewriting each apostrophe to "%27".  `terminus` is the
next write index; only inside the name loop, and only after writing, does the
code test `terminus > maxNameLen` (the fatal logx(13) overflow path). -/

/-- The name field as the C loop reads it: indices 0..len of the kernel
buffer, stopping at the first NUL (the loop condition of line 712 is
`i <= event->len && event->name[i] != '\0'`). -/
def effName (len : Nat) (nameBuf : List Char) : List Char :=
  (nameBuf.take (len + 1)).takeWhile (fun c => c != nulC)

/-- The munge loop of lines 712-723.  `t` is `terminus` (next write index),
`acc` the characters deposited in the buffer by this loop, `w` the largest
buffer index written so far.  Returns (overflowFatal, acc, terminus, w).
An apostrophe deposits '%','2','7' at t..t+2 plus the copied NUL at t+3;
any other character is deposited at t. -/
def mungeLoop (maxNameLen : Nat) :
    List Char → Nat → List Char → Nat → Bool × List Char × Nat × Nat
  | [], t, acc, w => (false, acc, t, w)
  | c :: cs, t, acc, w =>
    if c = aposC then
      let acc := acc ++ [ '%', '2', '7' ]
      let w := max w (t + 3)
      let t := t + 3
      if t > maxNameLen then (true, acc, t, w) else mungeLoop maxNameLen cs t acc w
    else
      let acc := acc ++ [c]
      let w := max w t
      let t := t + 1
      if t > maxNameLen then (true, acc, t, w) else mungeLoop maxNameLen cs t acc w

/-- Lines 703-723 composed: the fileName copy writes indices 0..path.length
(its NUL at path.length is overwritten by the slash), then the munge loop
runs with terminus = path.length + 1.  Returns the assembled path (none on
the fatal overflow diagnostic) and the largest buffer index written. -/
def assemblePath (maxNameLen : Nat) (path : List Char) (len : Nat) (nameBuf : List Char) :
    Option (List Char) × Nat :=
  match mungeLoop maxNameLen (effName len nameBuf) (path.length + 1) [] path.length with
  | (true, _, _, w) => (none, w)
  | (false, acc, _, w) => (some (path ++ slashC :: acc), w)

/-- The pure content transformation performed by the munge loop: every
apostrophe becomes "%27", all other characters are kept in order. -/
def mungeName : List Char → List Char
  | [] => []
  | c :: cs => if c = aposC then '%' :: '2' :: '7' :: mungeName cs else c :: mungeName cs

/-- Does the list begin with the three-character sequence "%27"? -/
def starts27 (s : List Char) : Bool :=
  match s with
  | x :: y :: z :: _ => decide (x = '%') && decide (y = '2') && decide (z = '7')
  | _ => false

/-- Number of positions at which "%27" occurs in the list. -/
def occ27 : List Char → Nat
  | [] => 0
  | c :: rest => (if starts27 (c :: rest) then 1 else 0) + occ27 rest

/-- Number of apostrophes in the list. -/
def countApos : List Char → Nat
  | [] => 0
  | c :: rest => (if c = aposC then 1 else 0) + countApos rest

/-- Inverse of the munging: each "%27" back to an apostrophe. -/
def unmunge : List Char → List Char
  | [] => []
  | c :: rest =>
    if starts27 (c :: rest) then aposC :: unmunge (rest.drop 2)
    else c :: unmunge rest
termination_by s => s.length
decreasing_by
  · simp [List.length_drop]; omega
  · simp

/-- A C buffer of capacity cap has valid indices 0..cap-1. -/
def indexInBuf (cap i : Nat) : Prop := i < cap

instance (cap i : Nat) : Decidable (indexInBuf cap i) := Nat.decLt i cap

/-- strcpy of s writes s.length + 1 bytes; the final write (the NUL
terminator) lands at index s.length. -/
def strcpyLastIndex (s : List Char) : Nat := s.length

/-! ### The mail emitter of the worker parent (lines 885-934)

The worker parent closes the pipe write end and reads the first byte of the
grandchild's output; EOF means nothing is mailed, otherwise it opens
popen(MAILCOMMAND, "w") and streams headers, a body preamble, the first byte
and the remaining bytes. -/

-- MAILCOMMAND from gidgetmail.h: MAIL_TRANSPORT followed by MAIL_OPTIONS
def MAIL_TRANSPORT : List Char := "/usr/lib/sendmail".toList
def MAILCOMMAND : List Char := MAIL_TRANSPORT ++ " -Fgidget -odi -oem -oi -t ".toList

/-- The value printf's %d prints for a uint32_t: reinterpreted as a signed
32-bit int. -/
def int32Of (n : Nat) : Int := if n < 2 ^ 31 then (n : Int) else (n : Int) - 2 ^ 32

/-- The boilerplate mail headers of lines 906-917, including the mandatory
blank line after the last header. -/
def mailHeaders (userid mailTo fileOrFolder mailTime : List Char)
    (wd : Int) (mask : Nat) : List Char :=
  "From: ".toList ++ userid ++ " (gidget)\n".toList ++
  "To: ".toList ++ mailTo ++ "\n".toList ++
  "Subject: gidget event: ".toList ++ fileOrFolder ++ "\n".toList ++
  "Date: ".toList ++ mailTime ++ "\n".toList ++
  "Auto-Submitted: auto-generated\n".toList ++
  "X-gidget-object: ".toList ++ fileOrFolder ++ "\n".toList ++
  "X-gidget-watch: ".toList ++ (toString wd).toList ++ "\n".toList ++
  "X-gidget-mask: ".toList ++ (toString (int32Of mask)).toList ++ "\n\n".toList

/-- The body preamble of line 918: "%s -c %s:\n\n" with shell and command. -/
def mailBodyHead (shell command : List Char) : List Char :=
  shell ++ " -c ".toList ++ command ++ ":\n\n".toList

/-- Lines 894-927: whether the mail transport is opened and, when it is, the
byte stream written to it.  `output` is the grandchild's captured output (the
pipe contents); popen is modelled as succeeding. -/
def mailPhase (userid mailTo fileOrFolder mailTime shell command : List Char)
    (wd : Int) (mask : Nat) (output : List Char) : Bool × List Char :=
  match output with
  | [] => (false, [])
  | ch :: rest =>
    (true, mailHeaders userid mailTo fileOrFolder mailTime wd mask ++
           mailBodyHead shell command ++ ch :: rest)

/-! ### Command-line options: gig_opts() and getopt (lines 70-79, 1023-1116)

getopt is modelled per its glibc/POSIX contract for the option string
":dVvc:l:p:s:": option characters may be bundled in one element; an
argument-taking option consumes the rest of its element or the following
argv element; with the leading ':' a missing argument yields ':' with
optopt set (OptTok.missingArg), an unknown option yields '?'
(OptTok.badOpt).  Scanning stops at the first non-option element (the
configuration files of interest pass options first, where GNU permutation
makes no observable difference). -/

structure opts_t where
  daemon : Nat
  verbose : Nat
  log2file : Nat
  syslog : Nat
  sloglev : Int
  config : List Char
  logfile : List Char
  pidfile : List Char
deriving DecidableEq

-- defaults from lines 1026-1029
def defaultOpts : opts_t :=
  { daemon := 0, verbose := 0, log2file := 0, syslog := 0, sloglev := 0,
    config := "/etc/gidget.conf".toList,
    logfile := "/var/log/gidget".toList,
    pidfile := "/var/run/gidget.pid".toList }

/-- One getopt result: the value of `o` together with optarg / optopt. -/
inductive OptTok where
  | flagTok (c : Char)                 -- a recognized option without argument
  | argTok (c : Char) (arg : List Char) -- a recognized option with its optarg
  | missingArg (c : Char)              -- getopt returned ':' with optopt = c
  | badOpt (c : Char)                  -- getopt returned '?'
deriving DecidableEq

-- the option string ":dVvc:l:p:s:" (line 1032)
def optNeedsArg (c : Char) : Bool := c == 'c' || c == 'l' || c == 'p' || c == 's'
def optKnown (c : Char) : Bool := c == 'd' || c == 'V' || c == 'v' || optNeedsArg c

/-- getopt over the option characters of one argv element (after its dash);
`next` is the following argv element, if any.  The Bool reports whether
`next` was consumed as an option argument. -/
def scanShort : List Char → Option (List Char) → List OptTok × Bool
  | [], _ => ([], false)
  | c :: cs, next =>
    if optNeedsArg c then
      match cs with
      | _ :: _ => ([OptTok.argTok c cs], false)
      | [] =>
        match next with
        | some a => ([OptTok.argTok c a], true)
        | none => ([OptTok.missingArg c], false)
    else
      let t := if optKnown c then OptTok.flagTok c else OptTok.badOpt c
      match scanShort cs next with
      | (ts, b) => (t :: ts, b)

/-- getopt over the whole argument vector (argv after the program name).
Returns the option results and the remaining non-option arguments.  An
element is an option element when it starts with a dash and has at least one
more character; a lone "-" is a non-option, and "--" ends option scanning. -/
def scanOpts : List (List Char) → List OptTok × List (List Char)
  | [] => ([], [])
  | a :: rest =>
    match a with
    | [] => ([], a :: rest)
    | c :: cs =>
      if c = '-' then
        match cs with
        | [] => ([], a :: rest)
        | c1 :: cs1 =>
          if c1 = '-' ∧ cs1 = [] then ([], rest)
          else
            match scanShort (c1 :: cs1) rest.head? with
            | (ts, true) =>
              match rest with
              | [] => (ts, [])
              | _ :: rest2 =>
                match scanOpts rest2 with
                | (ts2, pos) => (ts ++ ts2, pos)
            | (ts, false) =>
              match scanOpts rest with
              | (ts2, pos) => (ts ++ ts2, pos)
      else ([], a :: rest)

/-- Exits taken inside gig_opts (usage() exits 1, -V exits 0, the length
guards exit 1). -/
inductive GigExit where
  | usageErr
  | usageOut
  | versionExit
  | argTooLong
deriving DecidableEq

/-- The switch of the gig_opts while loop (lines 1033-1101). -/
def applyOpt (opt : opts_t) (t : OptTok) : Except GigExit opts_t :=
  match t with
  | OptTok.missingArg c =>
    -- case ':': only -s gets a default level; note opt.syslog is NOT set
    if c = 's' then .ok {opt with sloglev := 3}
    else .ok opt  -- "Option -%c requires an argument." to stderr, then continue
  | OptTok.flagTok c =>
    if c = 'd' then .ok {opt with daemon := 1, log2file := 1}
    else if c = 'V' then .error GigExit.versionExit
    else .ok {opt with verbose := 1}   -- 'v' is the only remaining flag
  | OptTok.argTok c a =>
    if c = 'c' then
      if a.length > MAX_CONFIG_NAME_LEN then .error GigExit.argTooLong
      else .ok {opt with config := a}
    else if c = 'l' then
      if a.length > MAX_LOG_NAME_LEN then .error GigExit.argTooLong
      else .ok {opt with logfile := a, log2file := 1}
    else if c = 'p' then
      if a.length > MAX_PID_NAME_LEN then .error GigExit.argTooLong
      else .ok {opt with pidfile := a}
    else
      -- case 's' with an argument
      let lev : Int :=
        match a with
        | [d] => if d.isDigit then ((d.toNat : Int) - 48) else -1
        | _ => -1
      if lev > 7 ∨ lev < 0 then .error GigExit.usageErr
      else .ok {opt with sloglev := lev, syslog := 1}
  | OptTok.badOpt _ => .error GigExit.usageOut   -- case '?': usage(stdout)

/-- gig_opts: determine run-time options from argv (program name omitted).
After the getopt loop, an undocumented bare positional argument is accepted
as the configuration file; a second positional is a usage error. -/
def gig_opts (args : List (List Char)) : Except GigExit opts_t :=
  match scanOpts args with
  | (toks, pos) =>
    match toks.foldlM applyOpt defaultOpts with
    | .error e => .error e
    | .ok opt =>
      match pos with
      | [] => .ok opt
      | p :: rest =>
        if p.length > MAX_CONFIG_NAME_LEN then .error GigExit.argTooLong
        else if rest.isEmpty then .ok {opt with config := p}
        else .error GigExit.usageErr

/-- Line 141: openlog is called only when opt.syslog is non-zero. -/
def openlogCalled (opt : opts_t) : Bool := opt.syslog != 0

/-- Line 1213: logx duplicates a log line to syslog only when
opt.syslog == 1. -/
def syslogDuplication (opt : opts_t) : Bool := opt.syslog == 1

/-! ### Concrete fixtures used by the claim theorems -/

/-- A benign environment: every non-empty path lives on a filesystem with
NAME_MAX 255, inotify issues descriptors 1, 2, 3, ... in call order. -/
def env0 : Env :=
  { pathconf := fun p => if p = [] then -1 else 255,
    addWatch := fun n => (n + 1 : Int),
    maxUidLen := 256,
    verbose := false }

/-- An environment whose inotify returns a non-sequential descriptor. -/
def envBad : Env := { env0 with addWatch := fun _ => 5 }

def line0 : List Char := "a:1:s:u:m\n".toList
def line6 : List Char := "a:1:s:u:m:x\n".toList
def lineEmpty : List Char := [ '\n' ]
def lineComment : List Char := "#c\n".toList
def lineZeroMask : List Char := "a:0:s:u:m\n".toList
def lineBadMask : List Char := "a:1x:s:u:m\n".toList
def lineBigMask : List Char := "a:4294967295:s:u:m\n".toList

def st0 : ParseSt :=
  match loadConfig env0 [line0] initSt with
  | .ok st => st
  | .error _ => initSt

def stC3 : ParseSt :=
  match loadConfig env0 [line6] initSt with
  | .ok st => st
  | .error _ => initSt

def stC4 : ParseSt :=
  match loadConfig env0 [lineComment, line0, lineEmpty] initSt with
  | .ok st => st
  | .error _ => initSt

def stC8 : ParseSt :=
  match loadConfig env0 [lineBigMask, lineBadMask] initSt with
  | .ok st => st
  | .error _ => initSt

def stC9 : ParseSt :=
  match loadConfig env0 [lineZeroMask] initSt with
  | .ok st => st
  | .error _ => initSt

def argvS : List (List Char) := [ "-s".toList ]

def optS : opts_t :=
  match gig_opts argvS with
  | .ok o => o
  | .error _ => defaultOpts

/-- The table invariant: the trick at position i carries watch-id i + 1. -/
def WatchSeq (l : List trick_t) : Prop :=
  ∀ (i : Nat) (h : i < l.length), (l.get ⟨i, h⟩).watchHandle = (i + 1 : Int)

/-! ### Helper lemmas -/

theorem charCheck_tricks (c : Char) (pos badPony : Nat) (st : ParseSt) :
    (charCheck c pos badPony st).1.tricks = st.tricks := by
  simp only [charCheck]
  split_ifs <;> rfl

theorem procField_tricks (env : Env) (st : ParseSt) (badPony fieldNo : Nat) (tok : List Char) :
    (procField env st badPony fieldNo tok).1.tricks = st.tricks := by
  simp only [procField]
  split_ifs <;> rfl

theorem mainLineLoop_tricks (env : Env) :
    ∀ (chars : List Char) (pos : Nat) (tokAcc : List Char) (fieldNo badPony : Nat)
      (st : ParseSt),
      (mainLineLoop env chars pos tokAcc fieldNo badPony st).1.tricks = st.tricks := by
  intro chars
  induction chars with
  | nil => intro pos tokAcc fieldNo badPony st; rfl
  | cons c rest ih =>
    intro pos tokAcc fieldNo badPony st
    simp only [mainLineLoop]
    split
    · rfl
    · split
      · rw [ih, procField_tricks, charCheck_tricks]
      · rw [ih, charCheck_tricks]

theorem watchSeq_append (l : List trick_t) (t : trick_t)
    (hP : WatchSeq l) (ht : t.watchHandle = (l.length + 1 : Int)) : WatchSeq (l ++ [t]) := by
  intro i hi
  simp only [List.length_append, List.length_cons, List.length_nil] at hi
  by_cases hlt : i < l.length
  · have := hP i hlt
    simpa [List.get_eq_getElem, List.getElem_append_left hlt] using this
  · have hieq : i = l.length := by omega
    subst hieq
    simpa [List.get_eq_getElem, List.getElem_concat_length] using ht

theorem registerTrick_watchSeq (env : Env) (st st' : ParseSt)
    (h : registerTrick env st = .ok st') (hP : WatchSeq st.tricks) : WatchSeq st'.tricks := by
  simp only [registerTrick] at h
  split_ifs at h with h1 h2 hv
  · cases Except.ok.inj h
    exact hP
  · cases Except.ok.inj h
    refine watchSeq_append st.tricks _ hP ?_
    simpa using not_ne_iff.mp h2
  · cases Except.ok.inj h
    refine watchSeq_append st.tricks _ hP ?_
    simpa using not_ne_iff.mp h2

theorem linePost_watchSeq (env : Env) (st : ParseSt) (fieldNo badPony : Nat) (st' : ParseSt)
    (h : linePost env st fieldNo badPony = .ok st') (hP : WatchSeq st.tricks) :
    WatchSeq st'.tricks := by
  simp only [linePost] at h
  split_ifs at h
  · cases Except.ok.inj h; exact hP
  · cases Except.ok.inj h; exact hP
  · exact registerTrick_watchSeq env st st' h hP

theorem procLine_watchSeq (env : Env) (st : ParseSt) (line : List Char) (st' : ParseSt)
    (h : procLine env st line = .ok st') (hP : WatchSeq st.tricks) : WatchSeq st'.tricks := by
  simp only [procLine] at h
  rcases hm : mainLineLoop env line 0 [] 0 0 {st with lineNo := st.lineNo + 1}
    with ⟨stA, fA, bA⟩
  rw [hm] at h
  have h2 : stA.tricks = st.tricks := by
    have := mainLineLoop_tricks env line 0 [] 0 0 {st with lineNo := st.lineNo + 1}
    rw [hm] at this
    exact this
  exact linePost_watchSeq env stA fA bA st' h (by rw [h2]; exact hP)

theorem loadConfig_watchSeq (env : Env) :
    ∀ (lines : List (List Char)) (st st' : ParseSt),
      loadConfig env lines st = .ok st' → WatchSeq st.tricks → WatchSeq st'.tricks := by
  intro lines
  induction lines with
  | nil =>
    intro st st' h hP
    cases Except.ok.inj h
    exact hP
  | cons l ls ih =>
    intro st st' h hP
    simp only [loadConfig] at h
    rcases hp : procLine env st l with e | stA
    · rw [hp] at h
      exact Except.noConfusion h
    · rw [hp] at h
      exact ih stA st' h (procLine_watchSeq env st l stA hp hP)

/-! ### Claim theorems -/

/-- C1: Watch-id indexing: after the configuration load accepts N valid
tricks, for every i in [0,N) the trick stored at table position i has
watch-id i + 1; and whenever inotify returns a (non-negative) watch
descriptor different from trickCount + 1 at registration time, the daemon
terminates immediately with the heap-corrupt fatal diagnostic instead of
storing the trick. -/
theorem watch_id_indexing :
    (∀ (env : Env) (lines : List (List Char)) (st : ParseSt),
        loadConfig env lines initSt = .ok st →
        ∀ (i : Nat) (h : i < st.tricks.length),
          (st.tricks.get ⟨i, h⟩).watchHandle = (i + 1 : Int)) ∧
    (∀ (env : Env) (st : ParseSt),
        0 ≤ env.addWatch st.attempts →
        env.addWatch st.attempts ≠ (st.tricks.length + 1 : Int) →
        registerTrick env st = .error Msg.heapCorrupt) := by
  constructor
  · intro env lines st h
    exact loadConfig_watchSeq env lines initSt st h
      (fun i hi => absurd hi (by simp [initSt]))
  · intro env st h1 h2
    simp only [registerTrick]
    split_ifs with hA
    · exact absurd hA (by omega)
    · rfl

/-- Witness: loading one valid line under a sequential kernel yields a trick
with watch-id 1; a kernel handing out descriptor 5 next is the fatal
heap-corrupt exit. -/
theorem watch_id_indexing_witness :
    (st0.tricks.get ⟨0, by decide⟩).watchHandle = (1 : Int) ∧
    registerTrick envBad st0 = .error Msg.heapCorrupt := by
  constructor
  · exact watch_id_indexing.1 env0 [line0] st0 (by decide) 0 (by decide)
  · exact watch_id_indexing.2 envBad st0 (by decide) (by decide)

/-- C2 counterexample: an event name that contains the literal text "%27"
but no apostrophe (k = 0) assembles to a path with one occurrence of "%27",
so the assembled path does not contain exactly k occurrences. -/
theorem apostrophe_munging_cex :
    (assemblePath 300 [ 'a' ] 3 ("%27".toList)).1 = some ("a/%27".toList) ∧
    countApos (effName 3 ("%27".toList)) = 0 ∧
    aposC ∉ [ 'a' ] ∧
    ¬ occ27 ("a/%27".toList) = countApos (effName 3 ("%27".toList)) := by decide

/-- C3: a configuration line with six colon-separated fields is reported
with the TOO MANY FIELDS diagnostic (whose text claims "DISCARDING"), yet
the line is not discarded: badPony is never set in the default case of the
field switch, so a trick assembled from the first five fields is placed in
the table and no discard log is produced. -/
theorem six_field_line_produces_trick :
    loadConfig env0 [line6] initSt = .ok stC3 ∧
    stC3.tricks = [{ watchHandle := 1, actions := 1, fileName := [ 'a' ],
                     script := [ 's' ], userid := [ 'u' ], mail := [ 'm' ] }] ∧
    Msg.tooManyFields 1 [ 'x' ] ∈ stC3.logs ∧
    Msg.discardingLine 1 ∉ stC3.logs := by decide

/-- C4: an empty configuration line is not silently skipped: its newline is
a field delimiter, so field 1 is the empty token, pathconf fails on it, and
the loader logs both the pathconf diagnostic and the discard line.  In the
same file a full-line comment is skipped with no log, and the valid entry is
loaded. -/
theorem empty_line_not_silent :
    loadConfig env0 [lineComment, line0, lineEmpty] initSt = .ok stC4 ∧
    stC4.logs = [Msg.pathconfFail [], Msg.discardingLine 3] ∧
    stC4.tricks.map (fun t => t.fileName) = [[ 'a' ]] ∧
    loadConfig env0 [lineComment] initSt = .ok {initSt with lineNo := 1} := by decide

/-- C5: with maxNameLen = 3, a trick path of three characters and an event
with an empty name, the assembled path "abc/" has length 4 > 3 and the
worker does not take the fatal overflow exit (the check sits inside the
name loop, which never runs), even though the slash was written at buffer
index 3, outside the valid indices 0..2 of fileOrFolder[3]. -/
theorem overflow_check_missed :
    assemblePath 3 ("abc".toList) 0 [] = (some ("abc/".toList), 3) ∧
    ("abc/".toList).length > 3 ∧
    ¬ indexInBuf 3 3 := by decide

/-- C7: invoking the program as "gidget -s" parses to sloglev = 3 but the
syslog flag stays 0: the getopt ':' case sets only the level, so openlog is
never called and logx never duplicates to the system log. -/
theorem dash_s_leaves_syslog_disabled :
    gig_opts argvS = .ok optS ∧
    optS.sloglev = 3 ∧
    optS.syslog = 0 ∧
    openlogCalled optS = false ∧
    syslogDuplication optS = false := by decide

/-- C9 counterexample: the loader accepts the line "a:0:s:u:m" and places a
trick whose actions bitmap is zero in the active table. -/
theorem zero_mask_trick_cex :
    loadConfig env0 [lineZeroMask] initSt = .ok stC9 ∧
    stC9.tricks.map (fun t => t.actions) = [0] := by decide

/-! ### Munging lemmas for C2 -/

theorem mungeLoop_ok_acc (m : Nat) :
    ∀ (s : List Char) (t : Nat) (acc : List Char) (w : Nat),
      (mungeLoop m s t acc w).1 = false →
      (mungeLoop m s t acc w).2.1 = acc ++ mungeName s := by
  intro s
  induction s with
  | nil => intro t acc w _; simp [mungeLoop, mungeName]
  | cons c cs ih =>
    intro t acc w h
    by_cases h1 : c = aposC
    · by_cases h2 : t + 3 > m
      · simp only [mungeLoop, if_pos h1, if_pos h2] at h
        exact absurd h (by simp)
      · simp only [mungeLoop, if_pos h1, if_neg h2] at h ⊢
        rw [ih _ _ _ h, mungeName, if_pos h1, List.append_assoc]
        rfl
    · by_cases h2 : t + 1 > m
      · simp only [mungeLoop, if_neg h1, if_pos h2] at h
        exact absurd h (by simp)
      · simp only [mungeLoop, if_neg h1, if_neg h2] at h ⊢
        rw [ih _ _ _ h, mungeName, if_neg h1, List.append_assoc]
        rfl

theorem mungeName_two_seven (r : List Char) (tl : List Char)
    (h : mungeName r = '2' :: '7' :: tl) : ∃ tl2, r = '2' :: '7' :: tl2 := by
  cases r with
  | nil => simp [mungeName] at h
  | cons a r2 =>
    by_cases ha : a = aposC
    · rw [mungeName, if_pos ha] at h
      have : ('%' : Char) = '2' := by
        have h9 := congrArg (fun l => List.headI l) h
        simp at h9
      exact absurd this (by decide)
    · rw [mungeName, if_neg ha] at h
      obtain ⟨ha2, h2⟩ := List.cons.inj h
      cases r2 with
      | nil => simp [mungeName] at h2
      | cons b r3 =>
        by_cases hb : b = aposC
        · rw [mungeName, if_pos hb] at h2
          have : ('%' : Char) = '7' := by
            have h9 := congrArg (fun l => List.headI l) h2
            simp at h9
          exact absurd this (by decide)
        · rw [mungeName, if_neg hb] at h2
          obtain ⟨hb7, _⟩ := List.cons.inj h2
          exact ⟨r3, by rw [ha2, hb7]⟩

theorem starts27_head_ne (x : Char) (r : List Char) (hx : x ≠ '%') :
    starts27 (x :: r) = false := by
  cases r with
  | nil => rfl
  | cons y Y =>
    cases Y with
    | nil => rfl
    | cons z Z => simp [starts27, hx]

theorem occ27_cons (c : Char) (rest : List Char) :
    occ27 (c :: rest) = (if starts27 (c :: rest) then 1 else 0) + occ27 rest := rfl

theorem starts27_munge_false (c : Char) (cs : List Char)
    (hc : c ≠ aposC) (h0 : occ27 (c :: cs) = 0) :
    starts27 (c :: mungeName cs) = false := by
  cases hm : mungeName cs with
  | nil => rfl
  | cons y Y =>
    cases Y with
    | nil => rfl
    | cons z Z =>
      by_cases hc2 : c = '%'
      · by_cases hy : y = '2'
        · by_cases hz : z = '7'
          · exfalso
            subst hy
            subst hz
            obtain ⟨tl2, hcs⟩ := mungeName_two_seven cs Z hm
            subst hc2
            rw [hcs] at h0
            rw [occ27_cons] at h0
            have hs : starts27 ('%' :: '2' :: '7' :: tl2) = true := by
              simp [starts27]
            rw [hs] at h0
            simp at h0
          · simp [starts27, hz]
        · simp [starts27, hy]
      · simp [starts27, hc2]

theorem occ27_munge (s : List Char) (h0 : occ27 s = 0) :
    occ27 (mungeName s) = countApos s := by
  induction s with
  | nil => rfl
  | cons c cs ih =>
    have h0' : occ27 cs = 0 := by
      rw [occ27_cons] at h0
      omega
    by_cases hc : c = aposC
    · subst hc
      rw [mungeName, if_pos rfl]
      rw [occ27_cons, occ27_cons, occ27_cons, ih h0']
      have hs1 : starts27 ('%' :: '2' :: '7' :: mungeName cs) = true := by simp [starts27]
      have hs2 : starts27 ('2' :: '7' :: mungeName cs) = false :=
        starts27_head_ne _ _ (by decide)
      have hs3 : starts27 ('7' :: mungeName cs) = false :=
        starts27_head_ne _ _ (by decide)
      rw [hs1, hs2, hs3, countApos, if_pos rfl]
      simp
    · rw [mungeName, if_neg hc]
      rw [occ27_cons, starts27_munge_false c cs hc h0, ih h0', countApos, if_neg hc]
      simp

theorem aposC_not_mem_munge (s : List Char) : aposC ∉ mungeName s := by
  induction s with
  | nil => simp [mungeName]
  | cons c cs ih =>
    have hp : aposC ≠ '%' := by decide
    have h2 : aposC ≠ '2' := by decide
    have h7 : aposC ≠ '7' := by decide
    by_cases hc : c = aposC
    · rw [mungeName, if_pos hc]
      simp [hp, h2, h7, ih]
    · rw [mungeName, if_neg hc]
      simp [Ne.symm hc, ih]

theorem occ27_append_slash : ∀ (a b : List Char),
    occ27 (a ++ slashC :: b) = occ27 a + occ27 b := by
  intro a
  induction a with
  | nil =>
    intro b
    rw [List.nil_append, occ27_cons, starts27_head_ne slashC b (by decide)]
    simp [occ27]
  | cons x a2 ih =>
    intro b
    rw [List.cons_append, occ27_cons, ih, occ27_cons]
    have hsame : starts27 (x :: (a2 ++ slashC :: b)) = starts27 (x :: a2) := by
      cases a2 with
      | nil =>
        cases b with
        | nil => rfl
        | cons z Z =>
          have hs2 : slashC ≠ '2' := by decide
          simp [starts27, hs2]
      | cons y a3 =>
        cases a3 with
        | nil =>
          have hs7 : slashC ≠ '7' := by decide
          simp [starts27, hs7]
        | cons z a4 => rfl
    rw [hsame]
    omega

theorem unmunge_munge (s : List Char) (h0 : occ27 s = 0) :
    unmunge (mungeName s) = s := by
  induction s with
  | nil => simp [mungeName, unmunge]
  | cons c cs ih =>
    have h0' : occ27 cs = 0 := by
      rw [occ27_cons] at h0
      omega
    by_cases hc : c = aposC
    · subst hc
      rw [mungeName, if_pos rfl]
      rw [unmunge]
      have hs : starts27 ('%' :: '2' :: '7' :: mungeName cs) = true := by simp [starts27]
      rw [if_pos hs]
      simp only [List.drop]
      rw [ih h0']
    · rw [mungeName, if_neg hc]
      rw [unmunge]
      rw [starts27_munge_false c cs hc h0]
      simp only [if_neg, Bool.false_eq_true, if_false]
      rw [ih h0']

/-- C2 amended: provided neither the trick path nor the effective event name
already contains the literal sequence "%27" (and the path, which the loader
guarantees apostrophe-free, has no apostrophe), a successfully assembled path
contains exactly k occurrences of "%27" for an event name with k apostrophes,
contains no apostrophe, equals path ++ slash ++ munged name, and the munging
preserves all other name bytes in order (undoing every "%27" recovers the
name). -/
theorem apostrophe_munging_amended :
    ∀ (m : Nat) (path nameBuf : List Char) (len : Nat) (out : List Char) (w : Nat),
      aposC ∉ path →
      occ27 path = 0 →
      occ27 (effName len nameBuf) = 0 →
      assemblePath m path len nameBuf = (some out, w) →
      occ27 out = countApos (effName len nameBuf) ∧
      aposC ∉ out ∧
      out = path ++ slashC :: mungeName (effName len nameBuf) ∧
      unmunge (mungeName (effName len nameBuf)) = effName len nameBuf := by
  intro m path nameBuf len out w hpa hp27 hn27 hasm
  have hout : out = path ++ slashC :: mungeName (effName len nameBuf) := by
    simp only [assemblePath] at hasm
    rcases hml : mungeLoop m (effName len nameBuf) (path.length + 1) [] path.length
      with ⟨fatal, acc, t2, w2⟩
    rw [hml] at hasm
    cases fatal
    · have hacc := mungeLoop_ok_acc m (effName len nameBuf) (path.length + 1) [] path.length
      rw [hml] at hacc
      have hacc2 : acc = mungeName (effName len nameBuf) := by
        have := hacc rfl
        simpa using this
      have h1 := congrArg Prod.fst hasm
      simp only at h1
      have h2 := Option.some.inj h1
      rw [← h2, hacc2]
    · have h1 := congrArg Prod.fst hasm
      simp at h1
  refine ⟨?_, ?_, hout, unmunge_munge _ hn27⟩
  · rw [hout, occ27_append_slash, hp27, occ27_munge _ hn27]
    simp
  · rw [hout]
    intro hmem
    rcases List.mem_append.mp hmem with hm1 | hm2
    · exact hpa hm1
    · rcases List.mem_cons.mp hm2 with hs | hm3
      · exact absurd hs (by decide)
      · exact aposC_not_mem_munge _ hm3

/-- Witness for the amended munging claim: path "a", event name b-apostrophe-c
of declared length 5; the assembled path is "a/b%27c" with one "%27" and no
apostrophe, and unmunging recovers the name. -/
theorem apostrophe_munging_amended_witness :
    occ27 ("a/b%27c".toList) = countApos (effName 5 ('b' :: aposC :: [ 'c' ])) ∧
    aposC ∉ ("a/b%27c".toList) ∧
    "a/b%27c".toList = [ 'a' ] ++ slashC :: mungeName (effName 5 ('b' :: aposC :: [ 'c' ])) ∧
    unmunge (mungeName (effName 5 ('b' :: aposC :: [ 'c' ]))) =
      effName 5 ('b' :: aposC :: [ 'c' ]) :=
  apostrophe_munging_amended 300 [ 'a' ] ('b' :: aposC :: [ 'c' ]) 5 ("a/b%27c".toList) 6
    (by decide) (by decide) (by decide) (by decide)

/-- C6: Silent-on-success mail: when the grandchild's captured output is
empty (the first pipe read hits end-of-stream), the worker never opens the
mail transport and writes nothing; when at least one byte was produced, the
transport is opened and the written stream is exactly the headers, the body
preamble, and the captured bytes in order. -/
theorem silent_on_success_mail :
    ∀ (userid mailTo fof mailTime shell command : List Char) (wd : Int) (mask : Nat)
      (output : List Char),
      (output = [] →
        mailPhase userid mailTo fof mailTime shell command wd mask output = (false, [])) ∧
      (output ≠ [] →
        (mailPhase userid mailTo fof mailTime shell command wd mask output).1 = true ∧
        (mailPhase userid mailTo fof mailTime shell command wd mask output).2 =
          mailHeaders userid mailTo fof mailTime wd mask ++
            mailBodyHead shell command ++ output) := by
  intro userid mailTo fof mailTime shell command wd mask output
  constructor
  · intro h
    subst h
    rfl
  · intro h
    cases output with
    | nil => exact absurd rfl h
    | cons ch rest =>
      refine ⟨rfl, ?_⟩
      simp [mailPhase]

/-- Witness for the mail claim: empty output stays silent, one byte of
output opens the transport. -/
theorem silent_on_success_mail_witness :
    mailPhase [] [] [] [] [] [] 1 0 [] = (false, []) ∧
    (mailPhase [] [] [] [] [] [] 1 0 [ 'x' ]).1 = true := by
  constructor
  · exact (silent_on_success_mail [] [] [] [] [] [] 1 0 []).1 rfl
  · exact ((silent_on_success_mail [] [] [] [] [] [] 1 0 [ 'x' ]).2 (by simp)).1

/-- C8: Mask parsing: the mask field is accepted exactly when all its
characters are decimal digits (case 2 of the field switch stores atoi of the
token and otherwise logs the non-numeric diagnostic and sets badPony); the
stored value equals the decimal value of the field whenever it fits in 32
unsigned bits; any non-zero badPony discards the line; and concretely a
config with masks 4294967295 and "1x" stores 4294967295 and discards the
second line. -/
theorem mask_field_parsing :
    (∀ (env : Env) (st : ParseSt) (badPony : Nat) (tok : List Char),
       (tok.all Char.isDigit = true →
          procField env st badPony 2 tok =
            ({st with pony := {st.pony with actions := atoiU32 tok}}, badPony)) ∧
       (tok.all Char.isDigit = false →
          procField env st badPony 2 tok =
            ({st with logs := st.logs ++ [Msg.nonNumericMask st.lineNo]}, 2))) ∧
    (∀ tok : List Char, tok.all Char.isDigit = true → digitsVal tok < 2 ^ 32 →
       atoiU32 tok = digitsVal tok) ∧
    (∀ (env : Env) (st : ParseSt) (fieldNo badPony : Nat),
       badPony ≠ 0 → fieldNo ≠ 0 →
       linePost env st fieldNo badPony =
         .ok {st with logs := st.logs ++ [Msg.discardingLine st.lineNo]}) ∧
    (loadConfig env0 [lineBigMask, lineBadMask] initSt = .ok stC8 ∧
     stC8.tricks.map (fun t => t.actions) = [4294967295] ∧
     Msg.nonNumericMask 2 ∈ stC8.logs ∧
     Msg.discardingLine 2 ∈ stC8.logs) := by
  refine ⟨?_, ?_, ?_, by decide⟩
  · intro env st badPony tok
    constructor
    · intro h
      simp [procField, h]
    · intro h
      simp [procField, h]
  · intro tok _ hv
    unfold atoiU32
    rw [Nat.min_eq_left (by omega), Nat.mod_eq_of_lt hv]
  · intro env st fieldNo badPony h1 h2
    simp [linePost, h1, h2]

/-- Witness for the mask-parsing claim at concrete tokens and states. -/
theorem mask_field_parsing_witness :
    procField env0 initSt 0 2 ("7".toList) =
      ({initSt with pony := {initSt.pony with actions := atoiU32 ("7".toList)}}, 0) ∧
    atoiU32 ("4294967295".toList) = digitsVal ("4294967295".toList) ∧
    linePost env0 initSt 5 2 =
      .ok {initSt with logs := initSt.logs ++ [Msg.discardingLine initSt.lineNo]} := by
  refine ⟨(mask_field_parsing.1 env0 initSt 0 ("7".toList)).1 (by decide),
          mask_field_parsing.2.1 ("4294967295".toList) (by decide) (by decide),
          mask_field_parsing.2.2.1 env0 initSt 5 2 (by decide) (by decide)⟩

/-- C9 amended: the loader does not enforce a non-zero event-mask: for any
environment in which the path is valid, registration succeeds, and verbose
is off, the accepted line "a:0:s:u:m" places a trick whose actions bitmap
is zero in the active table. -/
theorem zero_mask_trick_amended :
    ∀ env : Env, env.pathconf [ 'a' ] = 255 → env.addWatch 0 = 1 →
      env.verbose = false → env.maxUidLen = 256 →
      (loadConfig env [lineZeroMask] initSt).map
          (fun st => st.tricks.map (fun t => t.actions)) = .ok [0] := by
  intro env hp hk hv hu
  simp [lineZeroMask, loadConfig, procLine, mainLineLoop, charCheck, procField, linePost,
        registerTrick, isprintC, aposC, initSt, initPony, atoiU32, digitsVal,
        maxScriptLen, maxEmailLen, hp, hk, hv, hu, Except.map]

/-- Witness for the amended zero-mask claim at the concrete environment. -/
theorem zero_mask_trick_amended_witness :
    (loadConfig env0 [lineZeroMask] initSt).map
        (fun st => st.tricks.map (fun t => t.actions)) = .ok [0] :=
  zero_mask_trick_amended env0 (by decide) (by decide) rfl rfl

/-- C10: the length guards on -c, -l, -p and the bare positional
configuration path reject only arguments strictly longer than the
destination capacity; an argument of length exactly the capacity is
accepted and stored, and strcpy of such an argument writes its NUL
terminator at index capacity, outside the buffer's valid index range. -/
theorem option_guard_off_by_one :
    (∀ s : List Char,
       (gig_opts [[ '-', 'c' ], s] = .error GigExit.argTooLong ↔
          MAX_CONFIG_NAME_LEN < s.length) ∧
       (s.length = MAX_CONFIG_NAME_LEN →
          gig_opts [[ '-', 'c' ], s] = .ok {defaultOpts with config := s} ∧
          ¬ indexInBuf MAX_CONFIG_NAME_LEN (strcpyLastIndex s))) ∧
    (∀ s : List Char,
       (gig_opts [[ '-', 'l' ], s] = .error GigExit.argTooLong ↔
          MAX_LOG_NAME_LEN < s.length) ∧
       (s.length = MAX_LOG_NAME_LEN →
          gig_opts [[ '-', 'l' ], s] = .ok {defaultOpts with logfile := s, log2file := 1} ∧
          ¬ indexInBuf MAX_LOG_NAME_LEN (strcpyLastIndex s))) ∧
    (∀ s : List Char,
       (gig_opts [[ '-', 'p' ], s] = .error GigExit.argTooLong ↔
          MAX_PID_NAME_LEN < s.length) ∧
       (s.length = MAX_PID_NAME_LEN →
          gig_opts [[ '-', 'p' ], s] = .ok {defaultOpts with pidfile := s} ∧
          ¬ indexInBuf MAX_PID_NAME_LEN (strcpyLastIndex s))) ∧
    (∀ s : List Char, (∀ (c : Char) (cs : List Char), s ≠ '-' :: c :: cs) →
       (gig_opts [s] = .error GigExit.argTooLong ↔ MAX_CONFIG_NAME_LEN < s.length) ∧
       (s.length = MAX_CONFIG_NAME_LEN →
          gig_opts [s] = .ok {defaultOpts with config := s} ∧
          ¬ indexInBuf MAX_CONFIG_NAME_LEN (strcpyLastIndex s))) := by
  have hc : ∀ s : List Char, gig_opts [[ '-', 'c' ], s] =
      if MAX_CONFIG_NAME_LEN < s.length then .error GigExit.argTooLong
      else .ok {defaultOpts with config := s} := by
    intro s
    by_cases hlen : MAX_CONFIG_NAME_LEN < s.length
    · simp [gig_opts, scanOpts, scanShort, applyOpt, optNeedsArg, optKnown, hlen]
    · simp [gig_opts, scanOpts, scanShort, applyOpt, optNeedsArg, optKnown, hlen]
  have hl : ∀ s : List Char, gig_opts [[ '-', 'l' ], s] =
      if MAX_LOG_NAME_LEN < s.length then .error GigExit.argTooLong
      else .ok {defaultOpts with logfile := s, log2file := 1} := by
    intro s
    by_cases hlen : MAX_LOG_NAME_LEN < s.length
    · simp [gig_opts, scanOpts, scanShort, applyOpt, optNeedsArg, optKnown, hlen]
    · simp [gig_opts, scanOpts, scanShort, applyOpt, optNeedsArg, optKnown, hlen]
  have hp : ∀ s : List Char, gig_opts [[ '-', 'p' ], s] =
      if MAX_PID_NAME_LEN < s.length then .error GigExit.argTooLong
      else .ok {defaultOpts with pidfile := s} := by
    intro s
    by_cases hlen : MAX_PID_NAME_LEN < s.length
    · simp [gig_opts, scanOpts, scanShort, applyOpt, optNeedsArg, optKnown, hlen]
    · simp [gig_opts, scanOpts, scanShort, applyOpt, optNeedsArg, optKnown, hlen]
  have hpos : ∀ s : List Char, (∀ (c : Char) (cs : List Char), s ≠ '-' :: c :: cs) →
      gig_opts [s] =
        if MAX_CONFIG_NAME_LEN < s.length then .error GigExit.argTooLong
        else .ok {defaultOpts with config := s} := by
    intro s hs
    have hscan : scanOpts [s] = ([], [s]) := by
      rcases s with _ | ⟨c0, cs0⟩
      · rfl
      · simp only [scanOpts.eq_def]
        by_cases hc0 : c0 = '-'
        · subst hc0
          rcases cs0 with _ | ⟨c1, cs1⟩
          · simp
          · exact absurd rfl (hs c1 cs1)
        · simp [hc0]
    by_cases hlen : MAX_CONFIG_NAME_LEN < s.length
    · simp [gig_opts, hscan, hlen, pure, Except.pure]
    · simp [gig_opts, hscan, hlen, pure, Except.pure]
  refine ⟨?_, ?_, ?_, ?_⟩
  · intro s
    constructor
    · rw [hc s]
      split_ifs with hsp
      · simp [hsp]
      · simp [hsp]
    · intro hlen
      rw [hc s, if_neg (by omega)]
      exact ⟨rfl, by simp [indexInBuf, strcpyLastIndex, hlen]⟩
  · intro s
    constructor
    · rw [hl s]
      split_ifs with hsp
      · simp [hsp]
      · simp [hsp]
    · intro hlen
      rw [hl s, if_neg (by omega)]
      exact ⟨rfl, by simp [indexInBuf, strcpyLastIndex, hlen]⟩
  · intro s
    constructor
    · rw [hp s]
      split_ifs with hsp
      · simp [hsp]
      · simp [hsp]
    · intro hlen
      rw [hp s, if_neg (by omega)]
      exact ⟨rfl, by simp [indexInBuf, strcpyLastIndex, hlen]⟩
  · intro s hs
    constructor
    · rw [hpos s hs]
      split_ifs with hsp
      · simp [hsp]
      · simp [hsp]
    · intro hlen
      rw [hpos s hs, if_neg (by omega)]
      exact ⟨rfl, by simp [indexInBuf, strcpyLastIndex, hlen]⟩

/-- Witness: arguments of length exactly 256 ( -c ) and 128 ( -p ) are
accepted, and strcpy's final write lands outside the buffer. -/
theorem option_guard_off_by_one_witness :
    gig_opts [[ '-', 'c' ], List.replicate 256 'a' ] =
      .ok {defaultOpts with config := List.replicate 256 'a'} ∧
    ¬ indexInBuf MAX_CONFIG_NAME_LEN (strcpyLastIndex (List.replicate 256 'a')) ∧
    gig_opts [[ '-', 'p' ], List.replicate 128 'b' ] =
      .ok {defaultOpts with pidfile := List.replicate 128 'b'} ∧
    ¬ indexInBuf MAX_PID_NAME_LEN (strcpyLastIndex (List.replicate 128 'b')) := by
  have h1 := (option_guard_off_by_one.1 (List.replicate 256 'a')).2
    (by rw [List.length_replicate]; rfl)
  have h2 := (option_guard_off_by_one.2.2.1 (List.replicate 128 'b')).2
    (by rw [List.length_replicate]; rfl)
  exact ⟨h1.1, h1.2, h2.1, h2.2⟩
